import Mathlib

set_option linter.unusedVariables false

/-! Shallow embedding of the farmLokal backend coordination layer.

Source files embedded here:
- src/Backend/src/middlewares/idempotency.middleware.js
- src/Backend/src/controllers/webhook.controller.js
- src/Backend/src/services/webhook.service.js
- src/Backend/src/config/init-db.js  (uniqueness constraint on event_id)
- src/Backend/src/utils/circuitBreaker.js
- src/Backend/src/middlewares/rateLimiter.middleware.js
- src/Backend/src/services/oauth.service.js

The MySQL table webhook_events is modelled as a list of records; the
UNIQUE constraint on event_id is modelled inside insertEvent, which
refuses the insert (ER_DUP_ENTRY) exactly when a record with the same
event_id already exists.  Redis keys are modelled as Option-valued
fields; a sorted set of timestamps as a list of Nat.  Each await point
of the JS code observes the store state passed to it, which lets the
concurrent-interference cases be expressed by passing different
snapshots to different steps. -/

/-! ## Event records (webhook_events table, init-db.js) -/

inductive EvStatus
  | pending
  | processed
  | failed
deriving DecidableEq, Repr

structure EventRecord where
  id : Nat
  event_id : String
  event_type : String
  payload : String
  status : EvStatus
  retry_count : Nat
  processed_at : Option Nat
deriving DecidableEq, Repr

/-- AUTO_INCREMENT primary key: next id is one past the largest id in the table. -/
def nextId (db : List EventRecord) : Nat :=
  (db.map (fun r => r.id)).foldr max 0 + 1

/-- SELECT id, status, processed_at FROM webhook_events WHERE event_id = ?
(rows[0] of the result). -/
def selectEvent (db : List EventRecord) (eid : String) : Option EventRecord :=
  db.find? (fun r => r.event_id == eid)

/-- INSERT INTO webhook_events (event_id, event_type, payload, status)
VALUES (?, ?, ?, 'pending').  The UNIQUE constraint on event_id makes the
insert fail with ER_DUP_ENTRY (modelled as none) exactly when a record
with that event_id already exists; on success the new row and its
insertId are returned. -/
def insertEvent (db : List EventRecord) (eid etype payload : String) :
    Option (List EventRecord × Nat) :=
  if db.any (fun r => r.event_id == eid) then none
  else
    let newId := nextId db
    some (db ++ [⟨newId, eid, etype, payload, .pending, 0, none⟩], newId)

/-- UPDATE webhook_events SET ... WHERE id = ?.  The JS code passes the bind
parameter through mysql2 query(), which renders undefined as SQL NULL;
`id = NULL` matches no row, so a missing id updates nothing. -/
def updateWhereId (db : List EventRecord) (id? : Option Nat)
    (f : EventRecord → EventRecord) : List EventRecord :=
  db.map (fun r =>
    match id? with
    | none => r
    | some i => if r.id == i then f r else r)

/-! ## Idempotency middleware (idempotency.middleware.js) -/

structure WebhookBody where
  event_id : Option String
  event_type : Option String
  payloadStr : String
deriving DecidableEq, Repr

structure WebhookReq where
  body : WebhookBody
  isRetry : Bool
  existingEventId : Option Nat
  eventDbId : Option Nat
deriving DecidableEq, Repr

structure HttpResponse where
  status : Nat
  success : Bool
  message : String
  processedAt : Option Nat
deriving DecidableEq, Repr

inductive MwOutcome
  | respond (r : HttpResponse)
  | next (req : WebhookReq)
deriving DecidableEq, Repr

/-- `req.body.event_type || 'unknown'`: JS falsy check (undefined or empty). -/
def jsOrUnknown (s? : Option String) : String :=
  match s? with
  | none => "unknown"
  | some t => if t = "" then "unknown" else t

/-- Decision taken from the SELECT result, following the branch order of the
middleware: processed, then failed, then the pending fallthrough. -/
inductive SelectOutcome
  | notFound
  | foundProcessed (r : EventRecord)
  | foundFailed (r : EventRecord)
  | foundPending (r : EventRecord)
deriving DecidableEq, Repr

def selectDecision (db : List EventRecord) (eid : String) : SelectOutcome :=
  match selectEvent db eid with
  | none => .notFound
  | some r =>
    match r.status with
    | .processed => .foundProcessed r
    | .failed => .foundFailed r
    | .pending => .foundPending r

/-- idempotencyMiddleware(req, res, next).  `dbSelect` is the table contents
observed by the SELECT await; `dbInsert` the contents observed by the
INSERT await (a concurrent admitter may have inserted between the two).
Returns the outcome (response sent, or next() with the mutated req) and
the table after the call. -/
def idempotencyMiddleware (req : WebhookReq) (dbSelect dbInsert : List EventRecord) :
    MwOutcome × List EventRecord :=
  match req.body.event_id with
  | none => (.respond ⟨400, false, "Missing event_id in webhook payload", none⟩, dbInsert)
  | some eid =>
    if eid = "" then
      (.respond ⟨400, false, "Missing event_id in webhook payload", none⟩, dbInsert)
    else
      match selectDecision dbSelect eid with
      | .foundProcessed r =>
        (.respond ⟨200, true, "Event already processed (idempotent response)",
          r.processed_at⟩, dbInsert)
      | .foundFailed r =>
        (.next { req with isRetry := true, existingEventId := some r.id }, dbInsert)
      | .foundPending _ =>
        (.respond ⟨409, false, "Event is currently being processed", none⟩, dbInsert)
      | .notFound =>
        match insertEvent dbInsert eid (jsOrUnknown req.body.event_type) req.body.payloadStr with
        | none =>
          (.respond ⟨200, true, "Event already processed (duplicate detected)", none⟩, dbInsert)
        | some (db2, newId) =>
          (.next { req with eventDbId := some newId }, db2)

/-- The sequential call: no interference between the SELECT and the INSERT. -/
def idempotencyMwSeq (req : WebhookReq) (db : List EventRecord) :
    MwOutcome × List EventRecord :=
  idempotencyMiddleware req db db

/-! ## Webhook service and controller (webhook.service.js, webhook.controller.js) -/

/-- WebhookService.processEvent(eventData, eventDbId, isRetry).  `handlerOk`
models whether the try block body (handlers and queries) succeeds; the
catch marks the row failed and rethrows.  Returns the table and whether
the call succeeded. -/
def processEvent (db : List EventRecord) (eventDbId : Option Nat)
    (isRetry handlerOk : Bool) (now : Nat) : List EventRecord × Bool :=
  let db1 := if isRetry then
      updateWhereId db eventDbId (fun r => { r with retry_count := r.retry_count + 1 })
    else db
  if handlerOk then
    (updateWhereId db1 eventDbId
      (fun r => { r with status := .processed, processed_at := some now }), true)
  else
    (updateWhereId db1 eventDbId (fun r => { r with status := .failed }), false)

/-- WebhookController.handleCallback: reads req.eventDbId and req.isRetry
(it never reads req.existingEventId), calls processEvent, answers 200 on
success and 500 on error. -/
def handleCallback (req : WebhookReq) (db : List EventRecord)
    (handlerOk : Bool) (now : Nat) : HttpResponse × List EventRecord :=
  let res := processEvent db req.eventDbId req.isRetry handlerOk now
  if res.2 then
    (⟨200, true, "Webhook processed successfully", none⟩, res.1)
  else
    (⟨500, false, "Failed to process webhook", none⟩, res.1)

/-- POST /webhook/callback: idempotencyMiddleware then handleCallback. -/
def handleWebhook (body : WebhookBody) (db : List EventRecord)
    (handlerOk : Bool) (now : Nat) : HttpResponse × List EventRecord :=
  let req0 : WebhookReq := ⟨body, false, none, none⟩
  match idempotencyMwSeq req0 db with
  | (.respond r, db1) => (r, db1)
  | (.next req1, db1) => handleCallback req1 db1 handlerOk now

/-! ## Circuit breaker (utils/circuitBreaker.js) -/

inductive CBState
  | CLOSED
  | OPEN
  | HALF_OPEN
deriving DecidableEq, Repr

/-- The three Redis keys of one breaker: state, failure counter, last-failure
timestamp.  A missing key is none (the counter key auto-expires after the
monitoring period; expiry shows up here as the key being absent). -/
structure CBStore where
  state : Option CBState
  failures : Option Nat
  lastFailure : Option Nat
deriving DecidableEq, Repr

structure CBConfig where
  failureThreshold : Nat
  resetTimeout : Nat
  monitoringPeriod : Nat
deriving DecidableEq, Repr

/-- getState: stored value, defaulting to CLOSED when the key is absent. -/
def getState (st : CBStore) : CBState :=
  st.state.getD .CLOSED

/-- getFailureCount: parseInt of the counter key, 0 when absent. -/
def getFailureCount (st : CBStore) : Nat :=
  st.failures.getD 0

/-- recordFailure: INCR the counter, SET lastFailure to now (the EXPIRE on the
counter key is the decay already modelled by the Option). -/
def recordFailure (st : CBStore) (now : Nat) : CBStore :=
  { st with failures := some (getFailureCount st + 1), lastFailure := some now }

/-- recordSuccess: DEL the counter key. -/
def recordSuccess (st : CBStore) : CBStore :=
  { st with failures := none }

/-- open(): setState OPEN. -/
def openBreaker (st : CBStore) : CBStore :=
  { st with state := some .OPEN }

/-- close(): setState CLOSED and DEL the counter key. -/
def closeBreaker (st : CBStore) : CBStore :=
  { st with state := some .CLOSED, failures := none }

/-- canAttemptReset: true when no last failure is recorded, else when
Date.now() minus the recorded instant reaches the reset timeout. -/
def canAttemptReset (cfg : CBConfig) (st : CBStore) (now : Nat) : Bool :=
  match st.lastFailure with
  | none => true
  | some t => (now : Int) - (t : Int) ≥ (cfg.resetTimeout : Int)

inductive CBResult
  | errorCircuitOpen
  | ok
  | errorRethrown
deriving DecidableEq, Repr

structure CBOutcome where
  result : CBResult
  fnInvoked : Bool
  store : CBStore
deriving DecidableEq, Repr

/-- The try/catch body of execute: runs fn (outcome fnOk), then updates the
store.  `staleState` is the local variable `state` read at the top of
execute, which is NOT re-read after the OPEN to HALF_OPEN transition. -/
def executeBody (cfg : CBConfig) (st : CBStore) (staleState : CBState)
    (now : Nat) (fnOk : Bool) : CBOutcome :=
  if fnOk then
    if staleState = .HALF_OPEN then
      ⟨.ok, true, closeBreaker st⟩
    else
      ⟨.ok, true, recordSuccess st⟩
  else
    let st1 := recordFailure st now
    if getFailureCount st1 ≥ cfg.failureThreshold then
      ⟨.errorRethrown, true, openBreaker st1⟩
    else
      ⟨.errorRethrown, true, st1⟩

/-- CircuitBreaker.execute(fn): one call against the stored state, with the
wrapped operation abstracted to its outcome fnOk. -/
def CircuitBreaker.execute (cfg : CBConfig) (st : CBStore)
    (now : Nat) (fnOk : Bool) : CBOutcome :=
  let state := getState st
  if state = .OPEN then
    if canAttemptReset cfg st now then
      executeBody cfg { st with state := some .HALF_OPEN } state now fnOk
    else
      ⟨.errorCircuitOpen, false, st⟩
  else
    executeBody cfg st state now fnOk

/-! ## Rate limiter (middlewares/rateLimiter.middleware.js) -/

structure RLConfig where
  windowMs : Nat
  maxRequests : Nat
deriving DecidableEq, Repr

/-- zRemRangeByScore(key, 0, windowStart): drop every score in
[0, now - windowMs].  Scores are Nat, so only the upper bound matters;
the JS subtraction may be negative, hence the Int comparison. -/
def pruneWindow (windowMs now : Nat) (entries : List Nat) : List Nat :=
  entries.filter (fun e => ¬ ((e : Int) ≤ (now : Int) - (windowMs : Int)))

/-- zAdd(key, {score: now, value: now}): sorted sets are member sets, so
adding an already present member leaves the set unchanged. -/
def zAddEntry (entries : List Nat) (now : Nat) : List Nat :=
  if now ∈ entries then entries else entries ++ [now]

inductive RLDecision
  | allowProceed (remaining : Nat) (resetAt : Nat)
  | reject (retryAfter : Nat)
deriving DecidableEq, Repr

/-- One admission check on the stored timestamps: prune, add now, count
(zCard), refresh the key expiry (Math.ceil(windowMs/1000) seconds), then
reject when the count exceeds maxRequests, else allow with the
X-RateLimit-Remaining and X-RateLimit-Reset values.  Returns the
decision, the stored entries after the check, and the expiry set. -/
def rateLimiterCheck (cfg : RLConfig) (now : Nat) (entries : List Nat) :
    RLDecision × List Nat × Nat :=
  let pruned := pruneWindow cfg.windowMs now entries
  let afterAdd := zAddEntry pruned now
  let requestCount := afterAdd.length
  let expirySec := (cfg.windowMs + 999) / 1000
  if requestCount > cfg.maxRequests then
    (.reject expirySec, afterAdd, expirySec)
  else
    (.allowProceed (cfg.maxRequests - requestCount) (now + cfg.windowMs), afterAdd, expirySec)

inductive RLOutcome
  | respond429 (retryAfter : Nat)
  | proceed (degradedLogged : Bool)
deriving DecidableEq, Repr

/-- The middleware around the check: `store` is none when the Redis multi
fails; the catch logs the error and calls next() — fail open. -/
def rateLimiter (cfg : RLConfig) (now : Nat) (store : Option (List Nat)) :
    RLOutcome × Option (List Nat) :=
  match store with
  | none => (.proceed true, none)
  | some entries =>
    match rateLimiterCheck cfg now entries with
    | (.reject ra, post, _) => (.respond429 ra, some post)
    | (.allowProceed _ _, post, _) => (.proceed false, some post)

/-! ## OAuth refresh-lock wait (services/oauth.service.js, _waitForLock) -/

/-- waitTime = Math.min(waitTime * 2, 1000). -/
def nextWaitTime (w : Nat) : Nat :=
  min (w * 2) 1000

/-- The while loop of _waitForLock.  `lockExists t` is what
redisClient.exists(LOCK_KEY) answers at instant t; the sleep advances the
clock by waitTime.  Terminates because each iteration moves `now` forward
by a positive amount while the guard bounds it by startTime + maxWaitMs. -/
def waitForLockLoop (lockExists : Nat → Bool) (startTime maxWaitMs now waitTime : Nat)
    (hw : 0 < waitTime) : Except String Unit :=
  if hlt : now - startTime < maxWaitMs then
    if lockExists now then
      waitForLockLoop lockExists startTime maxWaitMs (now + waitTime)
        (nextWaitTime waitTime) (by simp [nextWaitTime]; omega)
    else
      .ok ()
  else
    .error "Timeout waiting for OAuth token refresh lock"
termination_by startTime + maxWaitMs - now
decreasing_by omega

/-- _waitForLock(maxWaitMs = 5000): startTime = Date.now(), waitTime = 100. -/
def waitForLock (lockExists : Nat → Bool) (startTime : Nat)
    (maxWaitMs : Nat := 5000) : Except String Unit :=
  waitForLockLoop lockExists startTime maxWaitMs startTime 100 (by omega)

/-- The successive sleep durations: 100ms, then doubling under the 1000ms cap. -/
def waitSeq : Nat → Nat
  | 0 => 100
  | k + 1 => nextWaitTime (waitSeq k)

/-! ## Concurrent admission machine (idempotency middleware under interleaving)

N workers handle N identical webhook deliveries concurrently.  Each pool
await of one worker is an atomic step against the shared table; the
interleaving is an arbitrary schedule of worker indices.  A worker is a
three-step machine: the SELECT, the INSERT (reached only when the SELECT
saw nothing), and — for the insert winner — the processEvent completion
that marks the row processed (the NEW path sets req.eventDbId, so the
completion UPDATE targets the inserted row). -/

inductive AdmitResponse
  | newOk
  | alreadyCompleted
  | duplicateInFlight
  | retrySignal
deriving DecidableEq, Repr

inductive Phase
  | selecting
  | inserting
  | processing (handle : Nat)
  | finished (r : AdmitResponse)
deriving DecidableEq, Repr

structure Sys where
  db : List EventRecord
  phases : List Phase
deriving DecidableEq, Repr

def isWinner : Phase → Bool
  | .processing _ => true
  | .finished .newOk => true
  | _ => false

/-- Records of the table carrying the given event identifier. -/
def eidRecords (db : List EventRecord) (eid : String) : List EventRecord :=
  db.filter (fun r => r.event_id == eid)

/-- One atomic step of worker i (no-op for an out-of-range index or a
finished worker).  The SELECT maps the found status exactly as the
middleware does: processed gives the 200 idempotent response, failed the
retry path, pending the 409; ER_DUP_ENTRY on the INSERT gives the 200
duplicate-detected response. -/
def admitterStep (eid etype payload : String) (now : Nat) (sys : Sys) (i : Nat) : Sys :=
  match sys.phases.get? i with
  | none => sys
  | some ph =>
    match ph with
    | .selecting =>
      match selectDecision sys.db eid with
      | .notFound => { sys with phases := sys.phases.set i .inserting }
      | .foundProcessed _ =>
        { sys with phases := sys.phases.set i (.finished .alreadyCompleted) }
      | .foundFailed _ =>
        { sys with phases := sys.phases.set i (.finished .retrySignal) }
      | .foundPending _ =>
        { sys with phases := sys.phases.set i (.finished .duplicateInFlight) }
    | .inserting =>
      match insertEvent sys.db eid etype payload with
      | some (db2, newId) => { db := db2, phases := sys.phases.set i (.processing newId) }
      | none => { sys with phases := sys.phases.set i (.finished .alreadyCompleted) }
    | .processing h =>
      { db := updateWhereId sys.db (some h)
          (fun r => { r with status := .processed, processed_at := some now }),
        phases := sys.phases.set i (.finished .newOk) }
    | .finished _ => sys

/-- Run a schedule of worker indices from an initial system state. -/
def runAdmitters (eid etype payload : String) (now : Nat) (sys : Sys)
    (sched : List Nat) : Sys :=
  sched.foldl (admitterStep eid etype payload now) sys

/-- Initial state: the shared table plus n workers about to SELECT. -/
def initSys (db : List EventRecord) (n : Nat) : Sys :=
  ⟨db, List.replicate n .selecting⟩

/-! ## Helper lemmas -/

theorem any_eid_false_of_select_none {db : List EventRecord} {eid : String}
    (h : selectEvent db eid = none) : db.any (fun r => r.event_id == eid) = false := by
  rw [selectEvent, List.find?_eq_none] at h
  rw [List.any_eq_false]
  exact h

theorem select_some_mem {db : List EventRecord} {eid : String} {r : EventRecord}
    (h : selectEvent db eid = some r) : r ∈ db ∧ r.event_id = eid := by
  refine ⟨List.mem_of_find?_eq_some h, ?_⟩
  have := List.find?_some h
  simpa [beq_iff_eq] using this

/-! ## C1 — idempotency guard admission cases -/

/-- C1: for a call with a non-empty event identifier: if no record with that
identifier exists, a new `pending` record is inserted and the middleware
calls next() carrying the new record handle (NEW); if the record has
status processed, the 200 idempotent response carries the original
processed_at and business logic is not re-run (no next()); if the record
is pending, the 409 processing-in-progress response is returned, which is
distinct from the success responses and from the failure response. -/
theorem idempotency_select_cases (body : WebhookBody) (db : List EventRecord)
    (eid : String) (hbody : body.event_id = some eid) (hne : eid ≠ "") :
    (selectEvent db eid = none →
      idempotencyMwSeq ⟨body, false, none, none⟩ db =
        (.next ⟨body, false, none, some (nextId db)⟩,
         db ++ [⟨nextId db, eid, jsOrUnknown body.event_type, body.payloadStr,
                 .pending, 0, none⟩])) ∧
    (∀ r, selectEvent db eid = some r → r.status = .processed →
      idempotencyMwSeq ⟨body, false, none, none⟩ db =
        (.respond ⟨200, true, "Event already processed (idempotent response)",
          r.processed_at⟩, db)) ∧
    (∀ r, selectEvent db eid = some r → r.status = .pending →
      idempotencyMwSeq ⟨body, false, none, none⟩ db =
        (.respond ⟨409, false, "Event is currently being processed", none⟩, db) ∧
      (∀ pa : Option Nat,
        (⟨409, false, "Event is currently being processed", none⟩ : HttpResponse) ≠
          ⟨200, true, "Event already processed (idempotent response)", pa⟩) ∧
      (⟨409, false, "Event is currently being processed", none⟩ : HttpResponse) ≠
        ⟨500, false, "Failed to process webhook", none⟩) := by
  refine ⟨?_, ?_, ?_⟩
  · intro hnone
    have hany := any_eid_false_of_select_none hnone
    simp [idempotencyMwSeq, idempotencyMiddleware, hbody, hne, selectDecision, hnone,
      insertEvent, hany]
  · intro r hsome hst
    simp [idempotencyMwSeq, idempotencyMiddleware, hbody, hne, selectDecision, hsome, hst]
  · intro r hsome hst
    refine ⟨?_, ?_, ?_⟩
    · simp [idempotencyMwSeq, idempotencyMiddleware, hbody, hne, selectDecision, hsome, hst]
    · intro pa; simp
    · simp

/-- Witness for C1: a fresh table plus event evt_1 takes the NEW branch. -/
theorem idempotency_select_cases_witness :
    idempotencyMwSeq ⟨⟨some "evt_1", some "order.created", "pl"⟩, false, none, none⟩ [] =
      (.next ⟨⟨some "evt_1", some "order.created", "pl"⟩, false, none, some 1⟩,
       [⟨1, "evt_1", "order.created", "pl", .pending, 0, none⟩]) := by
  have h := idempotency_select_cases ⟨some "evt_1", some "order.created", "pl"⟩ [] "evt_1"
    rfl (by decide)
  simpa [nextId, jsOrUnknown] using h.1 rfl

/-! ## C2 — uniqueness-violation race treated as duplicate success -/

/-- C2: when the SELECT saw no record but the INSERT hits the uniqueness
constraint (a concurrent admitter inserted the same event_id between the
two awaits), the middleware answers the 200 duplicate-detected success
response: no next() (the event is not reprocessed) and no error response
reaches the caller. -/
theorem idempotency_race_duplicate (body : WebhookBody)
    (dbSelect dbInsert : List EventRecord) (eid : String)
    (hbody : body.event_id = some eid) (hne : eid ≠ "")
    (hsel : selectEvent dbSelect eid = none)
    (hdup : dbInsert.any (fun r => r.event_id == eid) = true) :
    idempotencyMiddleware ⟨body, false, none, none⟩ dbSelect dbInsert =
      (.respond ⟨200, true, "Event already processed (duplicate detected)", none⟩,
       dbInsert) := by
  simp [idempotencyMiddleware, hbody, hne, selectDecision, hsel, insertEvent, hdup]

/-- Witness for C2: the concurrent admitter inserted row 1 for evt_1 between
the SELECT (empty table) and the INSERT. -/
theorem idempotency_race_duplicate_witness :
    idempotencyMiddleware ⟨⟨some "evt_1", some "order.created", "pl"⟩, false, none, none⟩
      [] [⟨1, "evt_1", "order.created", "pl", .pending, 0, none⟩] =
      (.respond ⟨200, true, "Event already processed (duplicate detected)", none⟩,
       [⟨1, "evt_1", "order.created", "pl", .pending, 0, none⟩]) :=
  idempotency_race_duplicate ⟨some "evt_1", some "order.created", "pl"⟩ _ _ "evt_1"
    rfl (by decide) rfl (by decide)

/-! ## C3 — the retry path never touches the failed row -/

/-- C3 (code bug): resubmitting event evt_1 whose record (row 7) has status
failed.  The middleware does take the retry branch: it calls next() with
isRetry set and the existing row id stored in req.existingEventId.  But
the controller passes req.eventDbId — which the retry branch never sets —
to processEvent, so both UPDATEs run WHERE id = NULL and match no row:
the call reports 200 success, yet the row keeps status failed and
retry_count 2.  The retry counter is not incremented, the row is not
returned to in-progress, and it can never reach processed this way. -/
theorem retry_path_leaves_row_unchanged :
    idempotencyMwSeq ⟨⟨some "evt_1", some "order.created", "pl"⟩, false, none, none⟩
        [⟨7, "evt_1", "order.created", "pl", .failed, 2, none⟩] =
      (.next ⟨⟨some "evt_1", some "order.created", "pl"⟩, true, some 7, none⟩,
       [⟨7, "evt_1", "order.created", "pl", .failed, 2, none⟩]) ∧
    handleWebhook ⟨some "evt_1", some "order.created", "pl"⟩
        [⟨7, "evt_1", "order.created", "pl", .failed, 2, none⟩] true 1000 =
      (⟨200, true, "Webhook processed successfully", none⟩,
       [⟨7, "evt_1", "order.created", "pl", .failed, 2, none⟩]) := by
  constructor
  · rfl
  · rfl

/-! ## C5 — circuit breaker gating in the OPEN state -/

theorem executeBody_fnInvoked (cfg : CBConfig) (st : CBStore) (s : CBState)
    (now : Nat) (fnOk : Bool) : (executeBody cfg st s now fnOk).fnInvoked = true := by
  cases fnOk <;> simp [executeBody] <;> split <;> rfl

/-- C5: with the stored state OPEN and a recorded last-failure instant t,
a call made before the reset timeout has elapsed throws the circuit-open
error without invoking the wrapped operation and without touching the
store; a call made once the timeout has elapsed writes HALF_OPEN and then
runs the wrapped operation (this one call is the trial let through). -/
theorem breaker_open_gating (cfg : CBConfig) (st : CBStore) (now t : Nat) (fnOk : Bool)
    (hstate : st.state = some .OPEN) (hlf : st.lastFailure = some t) :
    (((now : Int) - t < (cfg.resetTimeout : Int)) →
      CircuitBreaker.execute cfg st now fnOk = ⟨.errorCircuitOpen, false, st⟩) ∧
    (((cfg.resetTimeout : Int) ≤ (now : Int) - t) →
      CircuitBreaker.execute cfg st now fnOk =
        executeBody cfg { st with state := some .HALF_OPEN } .OPEN now fnOk ∧
      (CircuitBreaker.execute cfg st now fnOk).fnInvoked = true) := by
  constructor
  · intro hlt
    have hc : canAttemptReset cfg st now = false := by
      simp [canAttemptReset, hlf]; omega
    simp [CircuitBreaker.execute, getState, hstate, hc]
  · intro hge
    have hc : canAttemptReset cfg st now = true := by
      simp [canAttemptReset, hlf]; omega
    have hx : CircuitBreaker.execute cfg st now fnOk =
        executeBody cfg { st with state := some .HALF_OPEN } .OPEN now fnOk := by
      simp [CircuitBreaker.execute, getState, hstate, hc]
    exact ⟨hx, by rw [hx]; exact executeBody_fnInvoked ..⟩

/-- Witness for C5: threshold 5, reset timeout 60000ms, last failure at 0.
At now = 59999 the call fast-fails without running the operation; at
now = 60000 the trial is let through. -/
theorem breaker_open_gating_witness :
    CircuitBreaker.execute ⟨5, 60000, 120000⟩ ⟨some .OPEN, some 5, some 0⟩ 59999 true =
      ⟨.errorCircuitOpen, false, ⟨some .OPEN, some 5, some 0⟩⟩ ∧
    (CircuitBreaker.execute ⟨5, 60000, 120000⟩ ⟨some .OPEN, some 5, some 0⟩ 60000 true).fnInvoked
      = true :=
  ⟨(breaker_open_gating ⟨5, 60000, 120000⟩ ⟨some .OPEN, some 5, some 0⟩ 59999 0 true
      rfl rfl).1 (by decide),
   ((breaker_open_gating ⟨5, 60000, 120000⟩ ⟨some .OPEN, some 5, some 0⟩ 60000 0 true
      rfl rfl).2 (by decide)).2⟩

/-! ## C6 — half-open trial outcome -/

/-- C6 counterexample: the claim says a failed trial in HALF_OPEN leaves the
breaker effectively open for subsequent calls.  Concretely: the breaker
opens, the reset timeout elapses, the trial call succeeds — but because
execute still holds the stale local `state = OPEN`, it takes the
recordSuccess branch, deleting the counter while leaving the stored state
HALF_OPEN.  A next call finds HALF_OPEN with counter 0 and fails: the
counter becomes 1, below the threshold 5, so the state stays HALF_OPEN —
and the following call still invokes the wrapped operation.  The breaker
is not effectively open after the failed trial. -/
theorem breaker_half_open_failure_not_open :
    (CircuitBreaker.execute ⟨5, 60000, 120000⟩ ⟨some .OPEN, some 5, some 0⟩ 60000 true).store
      = ⟨some .HALF_OPEN, none, some 0⟩ ∧
    (CircuitBreaker.execute ⟨5, 60000, 120000⟩ ⟨some .HALF_OPEN, none, some 0⟩ 60001 false).store
      = ⟨some .HALF_OPEN, some 1, some 60001⟩ ∧
    (CircuitBreaker.execute ⟨5, 60000, 120000⟩ ⟨some .HALF_OPEN, some 1, some 60001⟩
        60002 false).fnInvoked = true := by
  refine ⟨rfl, rfl, rfl⟩

/-- C6 amended: for a call that reads the stored state HALF_OPEN, success
moves the state to CLOSED and deletes the failure counter; failure
increments the counter and records the failure instant, and the state is
set back to OPEN only when the incremented count reaches the failure
threshold — otherwise the stored state stays HALF_OPEN and subsequent
calls still invoke the wrapped operation. -/
theorem breaker_half_open_outcome (cfg : CBConfig) (st : CBStore) (now : Nat) (fnOk : Bool)
    (hstate : st.state = some .HALF_OPEN) :
    (fnOk = true →
      CircuitBreaker.execute cfg st now fnOk =
        ⟨.ok, true, ⟨some .CLOSED, none, st.lastFailure⟩⟩) ∧
    (fnOk = false →
      CircuitBreaker.execute cfg st now fnOk =
        ⟨.errorRethrown, true,
         ⟨if getFailureCount st + 1 ≥ cfg.failureThreshold then some .OPEN
           else some .HALF_OPEN,
          some (getFailureCount st + 1), some now⟩⟩) := by
  constructor
  · intro h; subst h
    simp [CircuitBreaker.execute, getState, hstate, executeBody, closeBreaker]
  · intro h; subst h
    have hx : CircuitBreaker.execute cfg st now false =
        executeBody cfg st .HALF_OPEN now false := by
      simp [CircuitBreaker.execute, getState, hstate]
    have hrf : getFailureCount (recordFailure st now) = getFailureCount st + 1 := by
      simp [getFailureCount, recordFailure]
    rw [hx]
    unfold executeBody
    simp only [Bool.false_eq_true, if_false, hrf]
    split <;> simp [openBreaker, recordFailure, hstate]

/-- Witness for C6 amended: a successful trial from HALF_OPEN closes the
breaker and clears the counter; a failed trial with counter 4 reaches the
threshold 5 and re-opens it. -/
theorem breaker_half_open_outcome_witness :
    CircuitBreaker.execute ⟨5, 60000, 120000⟩ ⟨some .HALF_OPEN, some 4, some 0⟩ 7 true =
      ⟨.ok, true, ⟨some .CLOSED, none, some 0⟩⟩ ∧
    CircuitBreaker.execute ⟨5, 60000, 120000⟩ ⟨some .HALF_OPEN, some 4, some 0⟩ 7 false =
      ⟨.errorRethrown, true, ⟨some .OPEN, some 5, some 7⟩⟩ := by
  refine ⟨(breaker_half_open_outcome ⟨5, 60000, 120000⟩ _ 7 true rfl).1 rfl, ?_⟩
  have h := (breaker_half_open_outcome ⟨5, 60000, 120000⟩
    ⟨some .HALF_OPEN, some 4, some 0⟩ 7 false rfl).2 rfl
  simpa [getFailureCount] using h

/-! ## C7 — sliding-window admission check -/

/-- C7: on an admission check (with the current instant not already a member
of the kept window, as with millisecond timestamps from distinct
requests): the stored entries afterwards are exactly the pruned ones plus
the current timestamp, the key expiry is refreshed to the window length
in seconds, the check rejects exactly when the resulting count exceeds
the maximum — with retry-after equal to the window length — and
otherwise allows, reporting the remaining quota and the reset instant
now + window. -/
theorem rateLimiter_admission (cfg : RLConfig) (now : Nat) (entries : List Nat)
    (hfresh : now ∉ pruneWindow cfg.windowMs now entries) :
    (rateLimiterCheck cfg now entries).2.1 =
      pruneWindow cfg.windowMs now entries ++ [now] ∧
    (rateLimiterCheck cfg now entries).2.2 = (cfg.windowMs + 999) / 1000 ∧
    ((pruneWindow cfg.windowMs now entries).length + 1 > cfg.maxRequests →
      (rateLimiterCheck cfg now entries).1 = .reject ((cfg.windowMs + 999) / 1000)) ∧
    ((pruneWindow cfg.windowMs now entries).length + 1 ≤ cfg.maxRequests →
      (rateLimiterCheck cfg now entries).1 =
        .allowProceed (cfg.maxRequests - ((pruneWindow cfg.windowMs now entries).length + 1))
          (now + cfg.windowMs)) := by
  have hadd : zAddEntry (pruneWindow cfg.windowMs now entries) now =
      pruneWindow cfg.windowMs now entries ++ [now] := by
    simp [zAddEntry, hfresh]
  have hlen : (pruneWindow cfg.windowMs now entries ++ [now]).length =
      (pruneWindow cfg.windowMs now entries).length + 1 := by simp
  by_cases hc : (pruneWindow cfg.windowMs now entries).length + 1 > cfg.maxRequests
  · have hval : rateLimiterCheck cfg now entries =
        (.reject ((cfg.windowMs + 999) / 1000),
         pruneWindow cfg.windowMs now entries ++ [now], (cfg.windowMs + 999) / 1000) := by
      simp only [rateLimiterCheck, hadd]
      rw [if_pos (by rw [hlen]; exact hc)]
    rw [hval]
    exact ⟨rfl, rfl, fun _ => rfl, fun hle => absurd hc (by omega)⟩
  · have hval : rateLimiterCheck cfg now entries =
        (.allowProceed
          (cfg.maxRequests - ((pruneWindow cfg.windowMs now entries).length + 1))
          (now + cfg.windowMs),
         pruneWindow cfg.windowMs now entries ++ [now], (cfg.windowMs + 999) / 1000) := by
      simp only [rateLimiterCheck, hadd]
      rw [if_neg (by rw [hlen]; exact hc)]
      rw [hlen]
    rw [hval]
    exact ⟨rfl, rfl, fun hgt => absurd hgt hc, fun _ => rfl⟩

/-- Witness for C7: limit 100 per 15-minute window; 100 requests already in
the window, so the 101st from the same client is rejected with
retry-after 900 seconds. -/
theorem rateLimiter_admission_witness :
    (rateLimiterCheck ⟨900000, 100⟩ 900100
      ((List.range 100).map (fun k => 900000 + k))).1 = .reject 900 := by
  have h := rateLimiter_admission ⟨900000, 100⟩ 900100
    ((List.range 100).map (fun k => 900000 + k)) (by decide)
  have hlen : (pruneWindow 900000 900100
      ((List.range 100).map (fun k => 900000 + k))).length = 100 := by decide
  have := h.2.2.1 (by rw [hlen]; decide)
  simpa using this

/-! ## C8 — rate limiter fails open on store errors -/

/-- C8: when the store interaction fails, the middleware logs the degraded
mode and calls next(): the request proceeds rather than being rejected or
answered with an error. -/
theorem rateLimiter_fails_open (cfg : RLConfig) (now : Nat) :
    rateLimiter cfg now none = (.proceed true, none) := rfl

/-! ## C10 — rejected requests occupy window slots -/

/-- C10: the current timestamp is added before the count is taken — the count
equals the pruned entries plus one — and it stays stored even when the
decision is a rejection; hence for any later check whose window still
covers this instant, the timestamp is among the entries that survive that
check's pruning and counts toward its limit. -/
theorem rateLimiter_rejected_occupies_slot (cfg : RLConfig) (now : Nat)
    (entries : List Nat) (hfresh : now ∉ pruneWindow cfg.windowMs now entries) :
    now ∈ (rateLimiterCheck cfg now entries).2.1 ∧
    (rateLimiterCheck cfg now entries).2.1.length =
      (pruneWindow cfg.windowMs now entries).length + 1 ∧
    (∀ d, (rateLimiterCheck cfg now entries).1 = .reject d →
      now ∈ (rateLimiterCheck cfg now entries).2.1) ∧
    (∀ now2 : Nat, (now2 : Int) - (cfg.windowMs : Int) < (now : Int) →
      now ∈ pruneWindow cfg.windowMs now2 ((rateLimiterCheck cfg now entries).2.1)) := by
  have hpost := (rateLimiter_admission cfg now entries hfresh).1
  refine ⟨?_, ?_, ?_, ?_⟩
  · rw [hpost]; simp
  · rw [hpost]; simp
  · intro d _; rw [hpost]; simp
  · intro now2 hwin
    rw [hpost]
    rw [pruneWindow, List.mem_filter]
    refine ⟨by simp, ?_⟩
    simp only [decide_eq_true_eq]
    omega

/-- Witness for C10: the rejected 101st request timestamp 900100 is stored,
and a check one millisecond later still counts it. -/
theorem rateLimiter_rejected_occupies_slot_witness :
    900100 ∈ (rateLimiterCheck ⟨900000, 100⟩ 900100
      ((List.range 100).map (fun k => 900000 + k))).2.1 ∧
    900100 ∈ pruneWindow 900000 900101
      ((rateLimiterCheck ⟨900000, 100⟩ 900100
        ((List.range 100).map (fun k => 900000 + k))).2.1) := by
  have h := rateLimiter_rejected_occupies_slot ⟨900000, 100⟩ 900100
    ((List.range 100).map (fun k => 900000 + k)) (by decide)
  exact ⟨h.1, h.2.2.2 900101 (by decide)⟩

/-! ## C9 — bounded credential-lease wait -/

theorem waitForLockLoop_timeout (lockExists : Nat → Bool) (startTime maxWaitMs : Nat)
    (hheld : ∀ t, lockExists t = true) :
    ∀ fuel now waitTime (hw : 0 < waitTime), startTime + maxWaitMs - now ≤ fuel →
      waitForLockLoop lockExists startTime maxWaitMs now waitTime hw =
        .error "Timeout waiting for OAuth token refresh lock" := by
  intro fuel
  induction fuel with
  | zero =>
    intro now waitTime hw hfuel
    rw [waitForLockLoop]
    rw [dif_neg (by omega)]
  | succ fuel ih =>
    intro now waitTime hw hfuel
    rw [waitForLockLoop]
    by_cases hlt : now - startTime < maxWaitMs
    · rw [dif_pos hlt, if_pos (hheld now)]
      exact ih (now + waitTime) (nextWaitTime waitTime) _ (by omega)
    · rw [dif_neg hlt]

theorem waitSeq_closed_form : ∀ k, waitSeq k = min (100 * 2 ^ k) 1000 := by
  intro k
  induction k with
  | zero => simp [waitSeq]
  | succ k ih =>
    rw [waitSeq, ih, nextWaitTime]
    rcases le_total (100 * 2 ^ k) 1000 with h | h
    · rw [min_eq_left h, pow_succ, ← mul_assoc]
    · rw [min_eq_right h]
      have h2 : 1000 * 2 ≤ 100 * 2 ^ k * 2 := Nat.mul_le_mul_right 2 h
      rw [pow_succ, ← mul_assoc]
      omega

/-- C9: the lease wait is a bounded poll loop.  Its polling interval starts
at 100ms and doubles up to the 1000ms cap (the closed form of the k-th
sleep duration), and whenever the lock stays held throughout, the loop
terminates with the lock-timeout error once the maximum total wait is
exhausted — it never waits unboundedly (the loop is well founded: each
iteration advances the clock by a positive sleep while the guard bounds
it by startTime + maxWaitMs). -/
theorem waitForLock_bounded (lockExists : Nat → Bool) (startTime maxWaitMs : Nat)
    (hheld : ∀ t, lockExists t = true) :
    waitForLock lockExists startTime maxWaitMs =
      .error "Timeout waiting for OAuth token refresh lock" ∧
    (∀ k, waitSeq k = min (100 * 2 ^ k) 1000) := by
  refine ⟨?_, waitSeq_closed_form⟩
  exact waitForLockLoop_timeout lockExists startTime maxWaitMs hheld
    (startTime + maxWaitMs) startTime 100 (by omega) (by omega)

/-- Witness for C9: with the lock held forever and the default 5000ms bound,
the wait fails with the lock-timeout error; the fifth sleep has reached
the 1000ms cap. -/
theorem waitForLock_bounded_witness :
    waitForLock (fun _ => true) 0 5000 =
      .error "Timeout waiting for OAuth token refresh lock" ∧
    waitSeq 4 = 1000 := by
  have h := waitForLock_bounded (fun _ => true) 0 5000 (fun _ => rfl)
  exact ⟨h.1, by rw [h.2 4]; decide⟩

/-! ## C4 — helper lemmas on list updates and eid record counting -/

theorem mem_set_elim {α : Type} {l : List α} {i : Nat} {b x : α}
    (h : x ∈ l.set i b) : x = b ∨ x ∈ l := by
  induction l generalizing i with
  | nil => simp at h
  | cons a t ih =>
    cases i with
    | zero =>
      rcases List.mem_cons.mp h with h0 | h0
      · exact .inl h0
      · exact .inr (List.mem_cons_of_mem _ h0)
    | succ i =>
      rcases List.mem_cons.mp h with h0 | h0
      · exact .inr (h0 ▸ List.mem_cons_self _ _)
      · rcases ih h0 with h1 | h1
        · exact .inl h1
        · exact .inr (List.mem_cons_of_mem _ h1)

theorem countP_set_eq {α : Type} (p : α → Bool) (l : List α) (i : Nat) (b : α)
    (h : i < l.length) :
    (l.set i b).countP p + (if p (l.get ⟨i, h⟩) then 1 else 0) =
      l.countP p + (if p b then 1 else 0) := by
  induction l generalizing i with
  | nil => simp at h
  | cons a t ih =>
    cases i with
    | zero => simp [List.countP_cons]; omega
    | succ i =>
      simp only [List.set_cons_succ, List.countP_cons, List.get_cons_succ]
      have := ih i (by simpa using h)
      omega

theorem eidRecords_append (db l : List EventRecord) (eid : String) :
    eidRecords (db ++ l) eid = eidRecords db eid ++ eidRecords l eid :=
  List.filter_append _ _

theorem eidRecords_nil_iff (db : List EventRecord) (eid : String) :
    eidRecords db eid = [] ↔ ∀ r ∈ db, r.event_id ≠ eid := by
  rw [eidRecords, List.filter_eq_nil_iff]
  constructor
  · intro h r hr
    have := h r hr
    simpa [beq_iff_eq] using this
  · intro h r hr
    simpa [beq_iff_eq] using h r hr

theorem length_eidRecords_map (db : List EventRecord) (eid : String)
    (g : EventRecord → EventRecord) (hg : ∀ r, (g r).event_id = r.event_id) :
    (eidRecords (db.map g) eid).length = (eidRecords db eid).length := by
  induction db with
  | nil => rfl
  | cons a t ih =>
    simp only [List.map_cons, eidRecords, List.filter_cons] at *
    rw [hg a]
    split <;> simp [ih]

theorem length_eidRecords_update (db : List EventRecord) (eid : String)
    (id? : Option Nat) (f : EventRecord → EventRecord)
    (hf : ∀ r, (f r).event_id = r.event_id) :
    (eidRecords (updateWhereId db id? f) eid).length = (eidRecords db eid).length := by
  rw [updateWhereId]
  apply length_eidRecords_map
  intro r
  cases id? with
  | none => rfl
  | some i =>
    by_cases h : r.id == i
    · simp [h, hf]
    · simp [h]

theorem mem_update_elim {db : List EventRecord} {id? : Option Nat}
    {f : EventRecord → EventRecord} {x : EventRecord}
    (h : x ∈ updateWhereId db id? f) : ∃ r ∈ db, x = r ∨ x = f r := by
  rw [updateWhereId] at h
  rcases List.mem_map.mp h with ⟨r, hr, hx⟩
  refine ⟨r, hr, ?_⟩
  cases id? with
  | none => exact .inl hx.symm
  | some i =>
    by_cases hid : r.id == i
    · simp [hid] at hx; exact .inr hx.symm
    · simp [hid] at hx; exact .inl hx.symm

theorem selectEvent_none_of_no_eid {db : List EventRecord} {eid : String}
    (h : ∀ r ∈ db, r.event_id ≠ eid) : selectEvent db eid = none := by
  rw [selectEvent, List.find?_eq_none]
  intro r hr
  simpa [beq_iff_eq] using h r hr

theorem eid_mem_of_any {db : List EventRecord} {eid : String}
    (h : db.any (fun r => r.event_id == eid) = true) :
    ∃ r ∈ db, r.event_id = eid := by
  rcases List.any_eq_true.mp h with ⟨r, hr, hb⟩
  exact ⟨r, hr, by simpa [beq_iff_eq] using hb⟩

theorem length_eidRecords_pos {db : List EventRecord} {eid : String}
    {r : EventRecord} (hr : r ∈ db) (he : r.event_id = eid) :
    0 < (eidRecords db eid).length := by
  have : r ∈ eidRecords db eid :=
    List.mem_filter.mpr ⟨hr, by simp [he]⟩
  exact List.length_pos.mpr (List.ne_nil_of_mem this)

/-- The inductive invariant of the concurrent admission machine for one
event identifier: the table never holds two rows for it (the uniqueness
constraint), the number of rows equals the number of workers past a
successful insert, no row for it is ever failed on the success path, no
worker answers the retry response, and while no row exists every worker
is still before its insert. -/
structure AdmitInv (eid : String) (sys : Sys) : Prop where
  uniq : (eidRecords sys.db eid).length ≤ 1
  link : (eidRecords sys.db eid).length = sys.phases.countP isWinner
  noFailed : ∀ r ∈ sys.db, r.event_id = eid → r.status ≠ .failed
  noRetryResp : ∀ ph ∈ sys.phases, ph ≠ .finished .retrySignal
  empt : (eidRecords sys.db eid).length = 0 →
    ∀ ph ∈ sys.phases, ph = .selecting ∨ ph = .inserting

theorem initSys_inv (eid : String) (db : List EventRecord) (n : Nat)
    (hdb : ∀ r ∈ db, r.event_id ≠ eid) : AdmitInv eid (initSys db n) := by
  have h0 : eidRecords db eid = [] := (eidRecords_nil_iff db eid).mpr hdb
  refine ⟨?_, ?_, ?_, ?_, ?_⟩
  · simp [initSys, h0]
  · show (eidRecords db eid).length = List.countP isWinner (List.replicate n .selecting)
    rw [h0]
    simp only [List.length_nil]
    symm
    rw [List.countP_eq_zero]
    intro ph hph
    rw [List.eq_of_mem_replicate hph]
    simp [isWinner]
  · intro r hr he
    exact absurd he (hdb r hr)
  · intro ph hph
    rw [List.eq_of_mem_replicate hph]
    simp
  · intro _ ph hph
    exact .inl (List.eq_of_mem_replicate hph)

theorem eidRecords_nil_of_any_false {db : List EventRecord} {eid : String}
    (h : db.any (fun r => r.event_id == eid) = false) : eidRecords db eid = [] := by
  rw [eidRecords_nil_iff]
  intro r hr
  have := List.any_eq_false.mp h r hr
  simpa [beq_iff_eq] using this

/-- Preservation helper: overwriting worker i with a non-winner phase while
leaving the table alone keeps the invariant. -/
theorem AdmitInv.set_nonwinner {eid : String} {sys : Sys} {i : Nat}
    (h : AdmitInv eid sys) (hilen : i < sys.phases.length)
    (hold : isWinner (sys.phases.get ⟨i, hilen⟩) = false)
    (b : Phase) (hb : isWinner b = false) (hbr : b ≠ .finished .retrySignal)
    (hempt : (eidRecords sys.db eid).length = 0 → b = .selecting ∨ b = .inserting) :
    AdmitInv eid ⟨sys.db, sys.phases.set i b⟩ := by
  refine ⟨h.uniq, ?_, h.noFailed, ?_, ?_⟩
  · have hc := countP_set_eq isWinner sys.phases i b hilen
    simp only [hold, hb, Bool.false_eq_true, if_false, Nat.add_zero] at hc
    rw [h.link] at *
    exact hc.symm
  · intro ph' hph'
    rcases mem_set_elim hph' with rfl | hmem
    · exact hbr
    · exact h.noRetryResp _ hmem
  · intro h0 ph' hph'
    rcases mem_set_elim hph' with rfl | hmem
    · exact hempt h0
    · exact h.empt h0 _ hmem

/-- Each interleaved step of one worker preserves the invariant. -/
theorem admitterStep_inv (eid etype payload : String) (now : Nat) (sys : Sys) (i : Nat)
    (h : AdmitInv eid sys) :
    AdmitInv eid (admitterStep eid etype payload now sys i) := by
  cases hget : sys.phases.get? i with
  | none => simpa only [admitterStep, hget] using h
  | some ph =>
    have hilen : i < sys.phases.length := (List.get?_eq_some.mp hget).1
    have hgeti : sys.phases.get ⟨i, hilen⟩ = ph := (List.get?_eq_some.mp hget).2
    cases ph with
    | selecting =>
      cases hse : selectEvent sys.db eid with
      | none =>
        simp only [admitterStep, hget, selectDecision, hse]
        exact h.set_nonwinner hilen (by rw [hgeti]; rfl) _ rfl (by simp)
          (fun _ => .inr rfl)
      | some r =>
        have hmem := select_some_mem hse
        have hpos := length_eidRecords_pos hmem.1 hmem.2
        cases hst : r.status with
        | processed =>
          simp only [admitterStep, hget, selectDecision, hse, hst]
          exact h.set_nonwinner hilen (by rw [hgeti]; rfl) _ rfl (by simp)
            (fun h0 => absurd h0 (by omega))
        | pending =>
          simp only [admitterStep, hget, selectDecision, hse, hst]
          exact h.set_nonwinner hilen (by rw [hgeti]; rfl) _ rfl (by simp)
            (fun h0 => absurd h0 (by omega))
        | failed =>
          exact absurd hst (h.noFailed r hmem.1 hmem.2)
    | inserting =>
      cases hany : sys.db.any (fun r => r.event_id == eid) with
      | true =>
        have hx : insertEvent sys.db eid etype payload = none := by
          simp [insertEvent, hany]
        simp only [admitterStep, hget, hx]
        rcases eid_mem_of_any hany with ⟨r, hr, he⟩
        have hpos := length_eidRecords_pos hr he
        exact h.set_nonwinner hilen (by rw [hgeti]; rfl) _ rfl (by simp)
          (fun h0 => absurd h0 (by omega))
      | false =>
        have hx : insertEvent sys.db eid etype payload =
            some (sys.db ++ [⟨nextId sys.db, eid, etype, payload, .pending, 0, none⟩],
              nextId sys.db) := by
          simp [insertEvent, hany]
        simp only [admitterStep, hget, hx]
        have hlen0 : (eidRecords sys.db eid).length = 0 := by
          rw [eidRecords_nil_of_any_false hany]
          rfl
        have hlen1 : (eidRecords
            (sys.db ++ [⟨nextId sys.db, eid, etype, payload, .pending, 0, none⟩]) eid).length
            = 1 := by
          rw [eidRecords_append]
          simp only [List.length_append, hlen0]
          simp [eidRecords]
        have hcw : (sys.phases.set i (.processing (nextId sys.db))).countP isWinner = 1 := by
          have hc := countP_set_eq isWinner sys.phases i (.processing (nextId sys.db)) hilen
          have hw0 : sys.phases.countP isWinner = 0 := by
            rw [← h.link, hlen0]
          simp only [hgeti] at hc
          simp only [isWinner, Bool.false_eq_true, if_false, if_true, hw0] at hc
          omega
        refine ⟨?_, ?_, ?_, ?_, ?_⟩
        · dsimp only
          simp [hlen1]
        · dsimp only
          rw [hlen1, hcw]
        · intro x hx2 he2
          rcases List.mem_append.mp hx2 with hx2 | hx2
          · exact h.noFailed x hx2 he2
          · rcases List.mem_singleton.mp hx2 with rfl
            simp
        · intro ph' hph'
          rcases mem_set_elim hph' with rfl | hmem
          · simp
          · exact h.noRetryResp _ hmem
        · intro h0
          rw [hlen1] at h0
          omega
    | processing hnd =>
      simp only [admitterStep, hget]
      have hlenu : (eidRecords (updateWhereId sys.db (some hnd)
          (fun r => { r with status := .processed, processed_at := some now })) eid).length
          = (eidRecords sys.db eid).length := by
        apply length_eidRecords_update
        intro r
        rfl
      refine ⟨?_, ?_, ?_, ?_, ?_⟩
      · dsimp only
        rw [hlenu]; exact h.uniq
      · dsimp only
        rw [hlenu]
        have hc := countP_set_eq isWinner sys.phases i (.finished .newOk) hilen
        rw [hgeti] at hc
        simp [isWinner] at hc
        rw [h.link]
        omega
      · dsimp only
        intro x hx2 he2
        rcases mem_update_elim hx2 with ⟨r, hr, hcase | hcase⟩
        · subst hcase
          exact h.noFailed _ hr he2
        · subst hcase
          simp
      · dsimp only
        intro ph' hph'
        rcases mem_set_elim hph' with rfl | hmem
        · simp
        · exact h.noRetryResp _ hmem
      · dsimp only
        intro h0
        rw [hlenu] at h0
        have := h.empt h0 (sys.phases.get ⟨i, hilen⟩) (sys.phases.get_mem i hilen)
        rw [hgeti] at this
        rcases this with h1 | h1 <;> exact absurd h1 (by simp)
    | finished r =>
      simpa only [admitterStep, hget] using h

theorem runAdmitters_inv (eid etype payload : String) (now : Nat) (sched : List Nat) :
    ∀ sys : Sys, AdmitInv eid sys →
      AdmitInv eid (runAdmitters eid etype payload now sys sched) := by
  induction sched with
  | nil => intro sys h; exact h
  | cons a s ih =>
    intro sys h
    rw [runAdmitters, List.foldl_cons]
    exact ih _ (admitterStep_inv eid etype payload now sys a h)

theorem admitterStep_phases_length (eid etype payload : String) (now : Nat)
    (sys : Sys) (i : Nat) :
    (admitterStep eid etype payload now sys i).phases.length = sys.phases.length := by
  rw [admitterStep]
  cases hget : sys.phases.get? i with
  | none => rfl
  | some ph =>
    cases ph with
    | selecting =>
      cases hsd : selectDecision sys.db eid <;> simp [List.length_set]
    | inserting =>
      cases hins : insertEvent sys.db eid etype payload <;> simp [List.length_set]
    | processing hnd => simp [List.length_set]
    | finished r => rfl

theorem runAdmitters_phases_length (eid etype payload : String) (now : Nat)
    (sched : List Nat) :
    ∀ sys : Sys, (runAdmitters eid etype payload now sys sched).phases.length =
      sys.phases.length := by
  induction sched with
  | nil => intro sys; rfl
  | cons a s ih =>
    intro sys
    rw [runAdmitters, List.foldl_cons]
    rw [← runAdmitters]
    rw [ih]
    exact admitterStep_phases_length ..

/-- Progress rank of a worker phase: each step of a worker strictly advances
it until the worker is finished. -/
def phaseRank : Phase → Nat
  | .selecting => 0
  | .inserting => 1
  | .processing _ => 2
  | .finished _ => 3

theorem phaseRank_le_three (ph : Phase) : phaseRank ph ≤ 3 := by
  cases ph <;> simp [phaseRank]

theorem phaseRank_eq_three {ph : Phase} (h : phaseRank ph = 3) :
    ∃ r, ph = .finished r := by
  cases ph <;> simp [phaseRank] at h ⊢

theorem admitterStep_rank (eid etype payload : String) (now : Nat) (sys : Sys)
    (i j : Nat) (ph ph' : Phase)
    (hj : sys.phases.get? j = some ph)
    (hj' : (admitterStep eid etype payload now sys i).phases.get? j = some ph') :
    min 3 (phaseRank ph + if i = j then 1 else 0) ≤ phaseRank ph' := by
  by_cases hij : i = j
  · subst hij
    rw [admitterStep, hj] at hj'
    cases ph with
    | selecting =>
      cases hsd : selectDecision sys.db eid <;>
        rw [hsd] at hj' <;>
        rw [List.get?_set_eq, hj] at hj' <;>
        simp at hj' <;>
        subst hj' <;>
        simp [phaseRank]
    | inserting =>
      cases hins : insertEvent sys.db eid etype payload <;>
        rw [hins] at hj' <;>
        rw [List.get?_set_eq, hj] at hj' <;>
        simp at hj' <;>
        subst hj' <;>
        simp [phaseRank]
    | processing hnd =>
      rw [List.get?_set_eq, hj] at hj'
      simp at hj'
      subst hj'
      simp [phaseRank]
    | finished r =>
      rw [hj] at hj'
      cases hj'
      simp [phaseRank]
  · have hsame : (admitterStep eid etype payload now sys i).phases.get? j =
        sys.phases.get? j := by
      rw [admitterStep]
      cases hget : sys.phases.get? i with
      | none => rfl
      | some phi =>
        cases phi with
        | selecting =>
          cases hsd : selectDecision sys.db eid <;>
            exact List.get?_set_ne _ _ hij
        | inserting =>
          cases hins : insertEvent sys.db eid etype payload <;>
            exact List.get?_set_ne _ _ hij
        | processing hnd => exact List.get?_set_ne _ _ hij
        | finished r => rfl
    rw [hsame, hj] at hj'
    cases hj'
    simp [hij]

theorem runAdmitters_rank (eid etype payload : String) (now : Nat) (sched : List Nat) :
    ∀ (sys : Sys) (j : Nat) (ph : Phase), sys.phases.get? j = some ph →
      ∃ ph', (runAdmitters eid etype payload now sys sched).phases.get? j = some ph' ∧
        min 3 (phaseRank ph + sched.count j) ≤ phaseRank ph' := by
  induction sched with
  | nil =>
    intro sys j ph hj
    refine ⟨ph, hj, ?_⟩
    have := phaseRank_le_three ph
    simp only [List.count_nil]
    omega
  | cons a s ih =>
    intro sys j ph hj
    have hlt : j < (admitterStep eid etype payload now sys a).phases.length := by
      rw [admitterStep_phases_length]
      exact (List.get?_eq_some.mp hj).1
    have hj1 : (admitterStep eid etype payload now sys a).phases.get? j =
        some ((admitterStep eid etype payload now sys a).phases.get ⟨j, hlt⟩) :=
      List.get?_eq_get hlt
    have h1 := admitterStep_rank eid etype payload now sys a j ph _ hj hj1
    rcases ih (admitterStep eid etype payload now sys a) j _ hj1 with ⟨ph', hph', hrank⟩
    refine ⟨ph', ?_, ?_⟩
    · rw [runAdmitters, List.foldl_cons, ← runAdmitters]
      exact hph'
    · have hcnt : (a :: s).count j = s.count j + (if a = j then 1 else 0) := by
        simp [List.count_cons]
      rw [hcnt]
      have h3 := phaseRank_le_three ph'
      by_cases haj : a = j
      · rw [if_pos haj] at h1 ⊢
        omega
      · rw [if_neg haj] at h1 ⊢
        omega

/-- C4: N workers deliver the same event concurrently, under any interleaving
of their table operations, starting from a table with no row for the
identifier (the success-path model: handlers do not throw, so no row is
ever failed).  Then: at most one worker answers NEW; the uniqueness
constraint keeps at most one row for the identifier at all times; in any
completed run exactly one worker answered NEW — exactly one execution of
the business logic — and every other answer is AlreadyCompleted (200) or
DuplicateInFlight (409); and every worker finishes, i.e. receives a
response, whenever the schedule grants it three steps. -/
theorem concurrent_duplicate_admission (eid etype payload : String)
    (db : List EventRecord) (n now : Nat) (sched : List Nat) (final : Sys)
    (hdb : ∀ r ∈ db, r.event_id ≠ eid) (hn : 2 ≤ n)
    (hfin : final = runAdmitters eid etype payload now (initSys db n) sched) :
    final.phases.countP (fun ph => ph == .finished .newOk) ≤ 1 ∧
    (eidRecords final.db eid).length ≤ 1 ∧
    ((∀ ph ∈ final.phases, ∃ r, ph = .finished r) →
      final.phases.countP (fun ph => ph == .finished .newOk) = 1 ∧
      ∀ ph ∈ final.phases,
        ph = .finished .newOk ∨ ph = .finished .alreadyCompleted ∨
          ph = .finished .duplicateInFlight) ∧
    ((∀ i, i < n → 3 ≤ sched.count i) → ∀ ph ∈ final.phases, ∃ r, ph = .finished r) := by
  subst hfin
  have hinv := runAdmitters_inv eid etype payload now sched _ (initSys_inv eid db n hdb)
  have hlen : (runAdmitters eid etype payload now (initSys db n) sched).phases.length = n := by
    rw [runAdmitters_phases_length]
    simp [initSys]
  have hmono : (runAdmitters eid etype payload now (initSys db n) sched).phases.countP
      (fun ph => ph == .finished .newOk) ≤
      (runAdmitters eid etype payload now (initSys db n) sched).phases.countP isWinner := by
    apply List.countP_mono_left
    intro x _ hx
    have : x = .finished .newOk := by simpa [beq_iff_eq] using hx
    rw [this]
    rfl
  refine ⟨?_, hinv.uniq, ?_, ?_⟩
  · have h1 : (runAdmitters eid etype payload now (initSys db n) sched).phases.countP
        isWinner ≤ 1 := by
      rw [← hinv.link]
      exact hinv.uniq
    exact le_trans hmono h1
  · intro hall
    have hshape : ∀ ph ∈ (runAdmitters eid etype payload now (initSys db n) sched).phases,
        ph = .finished .newOk ∨ ph = .finished .alreadyCompleted ∨
          ph = .finished .duplicateInFlight := by
      intro ph hph
      rcases hall ph hph with ⟨r, rfl⟩
      have hnr := hinv.noRetryResp _ hph
      cases r with
      | newOk => exact .inl rfl
      | alreadyCompleted => exact .inr (.inl rfl)
      | duplicateInFlight => exact .inr (.inr rfl)
      | retrySignal => exact absurd rfl hnr
    refine ⟨?_, hshape⟩
    have hcongr : (runAdmitters eid etype payload now (initSys db n) sched).phases.countP
        isWinner =
        (runAdmitters eid etype payload now (initSys db n) sched).phases.countP
          (fun ph => ph == .finished .newOk) := by
      apply List.countP_congr
      intro x hx
      rcases hall x hx with ⟨r, rfl⟩
      cases r <;> simp [isWinner]
    have hpos : 1 ≤ (runAdmitters eid etype payload now (initSys db n) sched).phases.countP
        isWinner := by
      by_contra hcon
      have h0 : (runAdmitters eid etype payload now (initSys db n) sched).phases.countP
          isWinner = 0 := by omega
      have hlen0 : (eidRecords (runAdmitters eid etype payload now (initSys db n) sched).db
          eid).length = 0 := by rw [hinv.link, h0]
      have hget0 : (runAdmitters eid etype payload now (initSys db n) sched).phases.get? 0 =
          some ((runAdmitters eid etype payload now (initSys db n) sched).phases.get
            ⟨0, by omega⟩) := List.get?_eq_get _
      have hmem0 := List.get?_mem hget0
      rcases hall _ hmem0 with ⟨r, hr⟩
      rcases hinv.empt hlen0 _ hmem0 with h1 | h1 <;> rw [hr] at h1 <;> exact absurd h1 (by simp)
    have hl := hinv.link
    have hu := hinv.uniq
    omega
  · intro hcount ph hph
    rcases List.get?_of_mem hph with ⟨j, hj⟩
    have hjlt : j < n := by
      have := (List.get?_eq_some.mp hj).1
      rwa [hlen] at this
    have hrepl : (initSys db n).phases.get? j = some .selecting := by
      simp [initSys, List.get?_eq_getElem?, List.getElem?_replicate, hjlt]
    rcases runAdmitters_rank eid etype payload now sched (initSys db n) j .selecting hrepl
      with ⟨ph', hph', hrank⟩
    rw [hj] at hph'
    cases hph'
    have h3 := phaseRank_le_three ph
    have hc := hcount j hjlt
    have hrk : phaseRank ph = 3 := by
      have hr0 : phaseRank .selecting = 0 := rfl
      rw [hr0] at hrank
      omega
    exact phaseRank_eq_three hrk

/-- Witness for C4: two workers, empty table, the interleaving 0,1,0,1,0,1 —
both SELECT before either INSERT (the race the constraint must break).
All conclusions instantiate: the run completes, exactly one NEW response,
one row for the identifier, and the loser answers AlreadyCompleted. -/
theorem concurrent_duplicate_admission_witness :
    (runAdmitters "evt_1" "order.created" "p" 5 (initSys [] 2) [0, 1, 0, 1, 0, 1]).phases.countP
      (fun ph => ph == .finished .newOk) = 1 ∧
    (eidRecords (runAdmitters "evt_1" "order.created" "p" 5 (initSys [] 2)
      [0, 1, 0, 1, 0, 1]).db "evt_1").length ≤ 1 ∧
    (∀ ph ∈ (runAdmitters "evt_1" "order.created" "p" 5 (initSys [] 2)
      [0, 1, 0, 1, 0, 1]).phases, ∃ r, ph = .finished r) := by
  have h := concurrent_duplicate_admission "evt_1" "order.created" "p" [] 2 5
    [0, 1, 0, 1, 0, 1] _ (by simp) (by omega) rfl
  have hphases : (runAdmitters "evt_1" "order.created" "p" 5 (initSys [] 2)
      [0, 1, 0, 1, 0, 1]).phases =
      [.finished .newOk, .finished .alreadyCompleted] := by decide
  have hfin : ∀ ph ∈ (runAdmitters "evt_1" "order.created" "p" 5 (initSys [] 2)
      [0, 1, 0, 1, 0, 1]).phases, ∃ r, ph = .finished r := by
    rw [hphases]
    intro ph hph
    simp only [List.mem_cons, List.not_mem_nil, or_false] at hph
    rcases hph with rfl | rfl
    · exact ⟨_, rfl⟩
    · exact ⟨_, rfl⟩
  exact ⟨(h.2.2.1 hfin).1, h.2.1, hfin⟩
